import Mathlib

/-!
Verification development for the `nav-context-dnd` example application
(`examples/nav-context-dnd/src/main.rs`): a reorderable labeled list with
drag-and-drop payload negotiation.

The application code (message handling in `App::update`, the `DndText` and
`NavItemMime` mime implementations, the view's fallback strings, the nav-bar
drag-payload producer) is embedded directly from the source.  The navigation
list model (`nav_bar::Model`, alias of the segmented-button model) lives in
the framework, outside the example's source tree; its operations are
modelled from the specification's contracts for the Item Store and the
Position/Move Engine, each marked `Modelled from the spec:` in its doc
comment.  Strings that the program only compares or concatenates are Lean
`String`s; the byte-level payload of `DndText` is modelled with Unicode
scalar values (`List Nat`) together with an explicit UTF-8 encoder/decoder,
standing in for Rust's `str::as_bytes` and `String::from_utf8`.
-/

namespace NavDnd

/-- One navigable/reorderable item: stable id, display label, and optional
opaque payload (the page content stored via `.data(content)`). -/
structure Entry where
  id : Nat
  label : String
  data : Option String
deriving Repr, DecidableEq

/-- Modelled from the spec: the `ListModel` is an ordered sequence of
entries with unique ids, an active selection (`none` if nothing is active),
and a counter supplying fresh ids that are never reused. -/
structure ListModel where
  entries : List Entry
  nextId : Nat
  active : Option Nat
deriving Repr, DecidableEq

/-- The empty model (`nav_bar::Model::default()`). -/
def ListModel.empty : ListModel :=
  { entries := [], nextId := 0, active := none }

/-- Modelled from the spec: `insert(label, payload) -> id` appends a new
entry at the end, always succeeds, and returns a fresh unique id
(`nav_model.insert().text(title).data(content)`). -/
def ListModel.insert (m : ListModel) (label : String) (data : Option String) :
    ListModel × Nat :=
  ({ m with
      entries := m.entries ++ [{ id := m.nextId, label := label, data := data }]
      nextId := m.nextId + 1 },
    m.nextId)

/-- Zero-based index of the entry with the given id in a list, or `none`. -/
def idxOf : List Entry → Nat → Option Nat
  | [], _ => none
  | e :: rest, id =>
    if e.id = id then some 0 else (idxOf rest id).map (· + 1)

/-- Modelled from the spec: `positionOf(id) -> index?`, the current
zero-based index of the entry with that id, or `none` if absent
(`nav_model.position(id)`). -/
def ListModel.position (m : ListModel) (id : Nat) : Option Nat :=
  idxOf m.entries id

/-- Swap the elements at indices `i` and `j`; identity when either index is
out of range. -/
def swapIdx (l : List Entry) (i j : Nat) : List Entry :=
  match l[i]?, l[j]? with
  | some a, some b => (l.set i b).set j a
  | _, _ => l

/-- Modelled from the spec: `positionSet(id, target)` moves the entry with
that id by swapping it with the entry at the target index, clamping an
out-of-range target to `len-1` and never panicking
(`nav_model.position_set(id, pos)`). -/
def ListModel.position_set (m : ListModel) (id : Nat) (target : Nat) : ListModel :=
  match m.position id with
  | none => m
  | some i =>
    { m with entries := swapIdx m.entries i (min target (m.entries.length - 1)) }

/-- Modelled from the spec: `remove(id)` removes the entry with that id if
present, is a no-op otherwise, and clears the active selection when the
removed entry was the active one (`nav_model.remove(id)`). -/
def ListModel.remove (m : ListModel) (id : Nat) : ListModel :=
  if m.entries.any (fun e => e.id == id) then
    { m with
        entries := m.entries.filter (fun e => e.id != id)
        active := if m.active = some id then none else m.active }
  else m

/-- Modelled from the spec: `activate(id)` sets the active selection to `id`
if present, and changes nothing if `id` is absent (`nav_model.activate(id)`). -/
def ListModel.activate (m : ListModel) (id : Nat) : ListModel :=
  if m.entries.any (fun e => e.id == id) then { m with active := some id } else m

/-- Modelled from the spec: activate the entry at a given position if one
exists (`nav_model.activate_position(0)`). -/
def ListModel.activate_position (m : ListModel) (p : Nat) : ListModel :=
  match m.entries[p]? with
  | some e => { m with active := some e.id }
  | none => m

/-- Label of the entry with the given id (`nav_model.text(id)`). -/
def ListModel.text (m : ListModel) (id : Nat) : Option String :=
  (m.entries.find? (fun e => e.id == id)).map Entry.label

/-- Payload of the active entry, `none` when nothing is active or the active
entry has no data (`nav_model.active_data::<String>()`). -/
def ListModel.active_data (m : ListModel) : Option String :=
  m.active.bind fun a => (m.entries.find? (fun e => e.id == a)).bind Entry.data

/-- Placement instruction for a reorder, relative to the target entry. -/
inductive Relation where
  | before
  | after
deriving Repr, DecidableEq

/-- Insert an element at index `i` (append when `i` is past the end). -/
def insertAt (i : Nat) (a : Entry) (l : List Entry) : List Entry :=
  l.take i ++ a :: l.drop i

/-- Modelled from the spec: `reorder(draggedId, targetId, relation)` removes
the dragged entry and reinserts it immediately before/after the target's
position recomputed after the removal; it fails, leaving the model
unchanged, when `draggedId = targetId` or either id is absent
(`nav_model.reorder(dragged, target, position)`), returning the success flag
the caller logs. -/
def ListModel.reorder (m : ListModel) (dragged target : Nat) (rel : Relation) :
    Bool × ListModel :=
  if dragged = target then (false, m)
  else
    match m.entries.find? (fun e => e.id == dragged), m.position target with
    | some de, some _ =>
      let rest := m.entries.filter (fun e => e.id != dragged)
      match idxOf rest target with
      | some t =>
        let idx := match rel with
          | .before => t
          | .after => t + 1
        (true, { m with entries := insertAt idx de rest })
      | none => (false, m)
    | _, _ => (false, m)

/-- Reorder event delivered by the nav-bar widget (`ReorderEvent`). -/
structure ReorderEvent where
  dragged : Nat
  target : Nat
  position : Relation
deriving Repr, DecidableEq

/-- Context-menu actions for a nav item (`NavMenuAction`). -/
inductive NavMenuAction where
  | moveUp (id : Nat)
  | moveDown (id : Nat)
  | delete (id : Nat)
deriving Repr, DecidableEq

/-- Application messages (`Message`).  The hover coordinates are `f64`s the
program never computes with; they are carried as Lean `Float`s. -/
inductive Message where
  | navMenuAction (a : NavMenuAction)
  | sourceStarted
  | sourceFinished
  | sourceCancelled
  | zoneHovered (x y : Float)
  | zoneDropped (data : String)
  | navReorder (e : ReorderEvent)

/-- Application state (`struct App`).  The framework `Core` handle is
outside the modelled state: the example only forwards it. -/
structure App where
  nav_model : ListModel
  dropped_text : String
deriving Repr, DecidableEq

/-- The `NavMenuAction::MoveUp(id)` arm of `App::update`: if the entry is
present and its position is nonzero, request `position_set(id, pos - 1)`. -/
def navMoveUp (m : ListModel) (id : Nat) : ListModel :=
  match m.position id with
  | some pos => if pos ≠ 0 then m.position_set id (pos - 1) else m
  | none => m

/-- The `NavMenuAction::MoveDown(id)` arm of `App::update`: if the entry is
present, unconditionally request `position_set(id, pos + 1)`. -/
def navMoveDown (m : ListModel) (id : Nat) : ListModel :=
  match m.position id with
  | some pos => m.position_set id (pos + 1)
  | none => m

/-- The `App::update` handler.  The returned `Option String` models the `Task` value:
`none` is `Task::none()` and `some t` would be a window-title task; every
arm of the source's `match` falls through to `Task::none()`.  The
`println!` logging is a side effect outside the state model. -/
def App.update (s : App) (msg : Message) : App × Option String :=
  match msg with
  | .navMenuAction a =>
    match a with
    | .delete id => ({ s with nav_model := s.nav_model.remove id }, none)
    | .moveUp id => ({ s with nav_model := navMoveUp s.nav_model id }, none)
    | .moveDown id => ({ s with nav_model := navMoveDown s.nav_model id }, none)
  | .navReorder e =>
    ({ s with nav_model := (s.nav_model.reorder e.dragged e.target e.position).2 },
      none)
  | .sourceStarted => (s, none)
  | .sourceFinished => (s, none)
  | .sourceCancelled => (s, none)
  | .zoneHovered _ _ => (s, none)
  | .zoneDropped data => ({ s with dropped_text := "Dropped: " ++ data }, none)

/-- The page content rendered by `App::view`:
`self.nav_model.active_data::<String>().map_or("No page selected", ...)`. -/
def App.page_content (s : App) : String :=
  (s.nav_model.active_data).getD "No page selected"

/-- From `App::active_page_title`: the active entry's label, or "Unknown Page". -/
def App.active_page_title (s : App) : String :=
  ((s.nav_model.active).bind (fun a => s.nav_model.text a)).getD "Unknown Page"

/-- The window title built by `App::update_title`:
`format!("{header_title} — COSMIC AppDemo")`. -/
def App.window_title (s : App) : String :=
  s.active_page_title ++ " — COSMIC AppDemo"

/-- From `App::init`: insert each input page in order, activate position 0, and
start with the drop-zone placeholder text. -/
def initApp (input : List (String × String)) : App :=
  let m := input.foldl (fun m p => (m.insert p.1 (some p.2)).1) ListModel.empty
  { nav_model := m.activate_position 0
    dropped_text := "Drop something here!" }

/-- The input pages built in `main`. -/
def input4 : List (String × String) :=
  [("Page 1", "🖖 Hello from libcosmic."),
   ("Page 2", "🌟 This is an example application."),
   ("Page 3", "🚧 The libcosmic API is not stable yet."),
   ("Page 4", "🚀 Copy the source code and experiment today!")]

/-- The private reorder mime tag:
`const NAV_ITEM_MIME: &str = "application/x-cosmic-nav-item"`. -/
def NAV_ITEM_MIME : String := "application/x-cosmic-nav-item"

/-- From `impl AllowedMimeTypes for NavItemMime`: the destination's accepted set. -/
def NavItemMime.allowed : List String := [NAV_ITEM_MIME]

/-- The drag-payload producer installed with `enable_tab_drag`: for every
nav-bar item id it returns `Some((NAV_ITEM_MIME.to_string(), Vec::new()))`. -/
def navDragPayload (_id : Nat) : Option (String × List Nat) :=
  some (NAV_ITEM_MIME, [])

/-- UTF-8 encoding of one Unicode scalar value (how Rust's `str::as_bytes`
exposes each `char` of a `String`). -/
def utf8EncodeChar (c : Nat) : List Nat :=
  if c < 0x80 then [c]
  else if c < 0x800 then
    [0xC0 + c / 64, 0x80 + c % 64]
  else if c < 0x10000 then
    [0xE0 + c / 4096, 0x80 + c / 64 % 64, 0x80 + c % 64]
  else
    [0xF0 + c / 262144, 0x80 + c / 4096 % 64, 0x80 + c / 64 % 64, 0x80 + c % 64]

/-- UTF-8 encoding of a sequence of Unicode scalar values. -/
def utf8Encode (s : List Nat) : List Nat :=
  (s.map utf8EncodeChar).flatten

/-- Whether `b` is a UTF-8 continuation byte (`10xxxxxx`). -/
def isCont (b : Nat) : Bool := 0x80 ≤ b && b < 0xC0

/-- Strict UTF-8 decoding, as performed by Rust's `String::from_utf8`:
rejects truncated sequences, stray continuation bytes, overlong encodings,
surrogate code points and values above `0x10FFFF`.  Returns the decoded
Unicode scalar values, or `none` when the bytes are not valid UTF-8. -/
def utf8Decode : List Nat → Option (List Nat)
  | [] => some []
  | b :: rest =>
    if b < 0x80 then
      (utf8Decode rest).map (b :: ·)
    else if b < 0xC2 then none
    else if b < 0xE0 then
      match rest with
      | b1 :: rest2 =>
        if isCont b1 then
          (utf8Decode rest2).map (((b - 0xC0) * 64 + (b1 - 0x80)) :: ·)
        else none
      | [] => none
    else if b < 0xF0 then
      match rest with
      | b1 :: b2 :: rest3 =>
        if isCont b1 && isCont b2
            && (b ≠ 0xE0 || 0xA0 ≤ b1) && (b ≠ 0xED || b1 < 0xA0) then
          (utf8Decode rest3).map
            (((b - 0xE0) * 4096 + (b1 - 0x80) * 64 + (b2 - 0x80)) :: ·)
        else none
      | _ => none
    else if b < 0xF5 then
      match rest with
      | b1 :: b2 :: b3 :: rest4 =>
        if isCont b1 && isCont b2 && isCont b3
            && (b ≠ 0xF0 || 0x90 ≤ b1) && (b ≠ 0xF4 || b1 < 0x90) then
          (utf8Decode rest4).map
            (((b - 0xF0) * 262144 + (b1 - 0x80) * 4096
                + (b2 - 0x80) * 64 + (b3 - 0x80)) :: ·)
        else none
      | _ => none
    else none

/-- From `struct DndText(pub String)`: the drag source's text payload, carried as
Unicode scalar values. -/
structure DndText where
  text : List Nat
deriving Repr, DecidableEq

/-- From `impl AsMimeTypes for DndText`, `fn available`: the advertised set. -/
def DndText.available (_d : DndText) : List String := ["text/plain"]

/-- From `impl AsMimeTypes for DndText`, `fn as_bytes`: materialize the payload
for a requested mime type.  `as_bytes` takes `&self`, so it cannot mutate
the source; it is embedded as a pure function. -/
def DndText.as_bytes (d : DndText) (mime_type : String) : Option (List Nat) :=
  if mime_type == "text/plain" then some (utf8Encode d.text) else none

/-- From `impl TryFrom<(Vec<u8>, String)> for DndText` with
`type Error = Infallible` (uninhabited, modelled by `Empty`):
`Ok(DndText(String::from_utf8(value.0).unwrap_or_default()))`. -/
def DndText.tryFrom (value : List Nat × String) : Except Empty DndText :=
  .ok { text := (utf8Decode value.1).getD [] }

/-- One model operation, for reasoning about arbitrary op sequences. -/
inductive Op where
  | ins (label : String) (data : Option String)
  | rem (id : Nat)

/-- Apply one operation, accumulating the history of ids handed out by
`insert`. -/
def stepH : ListModel × List Nat → Op → ListModel × List Nat
  | (m, hist), .ins label data =>
    let r := m.insert label data
    (r.1, hist ++ [r.2])
  | (m, hist), .rem id => (m.remove id, hist)

/-- Run a sequence of insert/remove operations from the empty model,
returning the final model and every id ever assigned. -/
def runH (ops : List Op) : ListModel × List Nat :=
  ops.foldl stepH (ListModel.empty, [])

/-- Invariant carried through every operation: assigned ids are pairwise
distinct and below the fresh-id counter, and the entries' ids are pairwise
distinct and below the counter. -/
def InvH (s : ListModel × List Nat) : Prop :=
  s.2.Nodup ∧ (∀ a ∈ s.2, a < s.1.nextId) ∧
    (s.1.entries.map Entry.id).Nodup ∧ ∀ e ∈ s.1.entries, e.id < s.1.nextId

/-- A small concrete model used to instantiate the general theorems. -/
def demoModel : ListModel :=
  { entries := [{ id := 0, label := "a", data := some "x" },
                { id := 1, label := "b", data := some "y" }]
    nextId := 2
    active := some 0 }

/-- A small concrete operation sequence used to instantiate the general
theorems. -/
def demoOps : List Op :=
  [.ins "a" none, .ins "b" none, .rem 0, .ins "c" none]

/-! ### Auxiliary lemmas -/

theorem idxOf_lt_length {l : List Entry} {id i : Nat}
    (h : idxOf l id = some i) : i < l.length := by
  induction l generalizing i with
  | nil => simp [idxOf] at h
  | cons e rest ih =>
    simp only [idxOf] at h
    split at h
    · cases h
      simp
    · cases hr : idxOf rest id with
      | none => rw [hr] at h; simp at h
      | some j =>
        rw [hr] at h
        simp at h
        have hj := ih hr
        simp only [List.length_cons]
        omega

theorem set_self {l : List Entry} {i : Nat} {a : Entry}
    (h : l[i]? = some a) : l.set i a = l := by
  induction l generalizing i with
  | nil => simp at h
  | cons x xs ih =>
    cases i with
    | zero =>
      simp only [List.getElem?_cons_zero, Option.some_inj] at h
      simp [h]
    | succ n =>
      simp only [List.getElem?_cons_succ] at h
      simp [ih h]

theorem swapIdx_self {l : List Entry} {i : Nat} (h : i < l.length) :
    swapIdx l i i = l := by
  have hi : l[i]? = some l[i] := List.getElem?_eq_getElem h
  simp only [swapIdx, hi]
  rw [List.set_set]
  exact set_self hi

theorem swapIdx_getElem? {l : List Entry} {i j : Nat} (hi : i < l.length)
    (hj : j < l.length) (k : Nat) :
    (swapIdx l i j)[k]? =
      if k = j then l[i]? else if k = i then l[j]? else l[k]? := by
  have hi' : l[i]? = some l[i] := List.getElem?_eq_getElem hi
  have hj' : l[j]? = some l[j] := List.getElem?_eq_getElem hj
  simp only [swapIdx, hi', hj']
  rw [List.getElem?_set, List.getElem?_set]
  simp only [List.length_set]
  by_cases hkj : k = j
  · subst hkj
    simp [hj, hi']
  · by_cases hki : k = i
    · subst hki
      simp [Ne.symm hkj, hkj, hi, hj']
    · simp [Ne.symm hkj, Ne.symm hki, hkj, hki]

/-! ### Claim theorems -/

/-- C1: for every model and every id present in it at index `i`, `moveDown`
swaps the entry with the next one when `i < len - 1`, and is a no-op
leaving every position unchanged when `i = len - 1`, even though the
implementation unconditionally requests position `i + 1` and relies on the
position-set operation clamping an out-of-range target to `len - 1`
(totality of the Lean function is the never-panics guarantee). -/
theorem moveDown_swaps_or_noop (m : ListModel) (id i : Nat)
    (h : m.position id = some i) :
    (i < m.entries.length - 1 →
      ((navMoveDown m id).entries[i]? = m.entries[i + 1]? ∧
       (navMoveDown m id).entries[i + 1]? = m.entries[i]? ∧
       ∀ j, j ≠ i → j ≠ i + 1 → (navMoveDown m id).entries[j]? = m.entries[j]?)) ∧
    (i = m.entries.length - 1 → navMoveDown m id = m) := by
  have hlen : i < m.entries.length := idxOf_lt_length h
  constructor
  · intro hlt
    have hmin : min (i + 1) (m.entries.length - 1) = i + 1 :=
      Nat.min_eq_left (by omega)
    have hj : i + 1 < m.entries.length := by omega
    simp only [navMoveDown, ListModel.position_set, h, hmin]
    refine ⟨?_, ?_, ?_⟩
    · rw [swapIdx_getElem? hlen hj i]
      simp [Nat.ne_of_lt (Nat.lt_succ_self i)]
    · rw [swapIdx_getElem? hlen hj (i + 1)]
      simp
    · intro j hji hjs
      rw [swapIdx_getElem? hlen hj j]
      simp [hji, hjs]
  · intro hlast
    have hmin : min (i + 1) (m.entries.length - 1) = i :=
      hlast ▸ Nat.min_eq_right (by omega)
    simp only [navMoveDown, ListModel.position_set, h, hmin,
      swapIdx_self hlen]

/-- Witness for C1 on a concrete model: `moveDown` on the last entry (index
`len - 1`) leaves the model unchanged, and on the first entry swaps it with
the next. -/
theorem moveDown_witness :
    navMoveDown demoModel 1 = demoModel ∧
    (navMoveDown demoModel 0).entries[0]? = demoModel.entries[1]? := by
  constructor
  · exact (moveDown_swaps_or_noop demoModel 1 1 (by decide)).2 (by decide)
  · exact ((moveDown_swaps_or_noop demoModel 0 0 (by decide)).1 (by decide)).1

/-- C2: `reorder(a, a, rel)` with dragged id equal to target id reports
failure and leaves the model's order and active selection unchanged,
whatever the model's contents. -/
theorem reorder_self_fails (m : ListModel) (a : Nat) (rel : Relation) :
    (m.reorder a a rel).1 = false ∧
    (m.reorder a a rel).2.entries = m.entries ∧
    (m.reorder a a rel).2.active = m.active := by
  simp [ListModel.reorder]

/-- C3: for every model and every id present in it at index `i`, `moveUp`
swaps the entry with the previous one when `i > 0`, and is a no-op in which
every entry's position is unchanged when `i = 0`. -/
theorem moveUp_swaps_or_noop (m : ListModel) (id i : Nat)
    (h : m.position id = some i) :
    (0 < i →
      ((navMoveUp m id).entries[i]? = m.entries[i - 1]? ∧
       (navMoveUp m id).entries[i - 1]? = m.entries[i]? ∧
       ∀ j, j ≠ i → j ≠ i - 1 → (navMoveUp m id).entries[j]? = m.entries[j]?)) ∧
    (i = 0 → navMoveUp m id = m) := by
  have hlen : i < m.entries.length := idxOf_lt_length h
  constructor
  · intro hpos
    have hmin : min (i - 1) (m.entries.length - 1) = i - 1 :=
      Nat.min_eq_left (by omega)
    have hj : i - 1 < m.entries.length := by omega
    have hne : i ≠ 0 := by omega
    simp only [navMoveUp, ListModel.position_set, h, hmin, hne,
      ne_eq, not_false_eq_true, if_true]
    refine ⟨?_, ?_, ?_⟩
    · rw [swapIdx_getElem? hlen hj i]
      have : i ≠ i - 1 := by omega
      simp [this]
    · rw [swapIdx_getElem? hlen hj (i - 1)]
      have : i - 1 ≠ i := by omega
      simp [this]
    · intro j hji hjp
      rw [swapIdx_getElem? hlen hj j]
      simp [hji, hjp]
  · intro hzero
    subst hzero
    simp [navMoveUp, h]

/-- Witness for C3 on a concrete model: `moveUp` on the entry at index 0
leaves the model unchanged, and on the entry at index 1 swaps it with the
previous one. -/
theorem moveUp_witness :
    navMoveUp demoModel 0 = demoModel ∧
    (navMoveUp demoModel 1).entries[1]? = demoModel.entries[0]? := by
  constructor
  · exact (moveUp_swaps_or_noop demoModel 0 0 (by decide)).2 rfl
  · exact ((moveUp_swaps_or_noop demoModel 1 1 (by decide)).1 (by decide)).1

/-- C4: a payload materialization request on the `DndText` drag source
succeeds exactly when the requested tag is in the source's advertised set:
`as_bytes` returns `some` with the string's UTF-8 bytes for `"text/plain"`
(the only tag in `available`) and `none` for every other mime type; the
function is pure (it embeds a `&self` method), so a failed request cannot
mutate the source. -/
theorem dndText_as_bytes_iff_available (d : DndText) (mime : String) :
    ((DndText.as_bytes d mime).isSome ↔ mime ∈ DndText.available d) ∧
    DndText.as_bytes d "text/plain" = some (utf8Encode d.text) ∧
    (mime ≠ "text/plain" → DndText.as_bytes d mime = none) := by
  refine ⟨?_, rfl, ?_⟩
  · by_cases hm : mime = "text/plain" <;>
      simp [DndText.as_bytes, DndText.available, hm]
  · intro hm
    simp [DndText.as_bytes, hm]

/-- Witness for C4: on a concrete source, an unadvertised tag yields `none`
and the advertised tag yields the UTF-8 bytes. -/
theorem dndText_as_bytes_witness :
    DndText.as_bytes { text := [104] } "image/png" = none ∧
    DndText.as_bytes { text := [104] } "text/plain"
      = some (utf8Encode [104]) :=
  ⟨(dndText_as_bytes_iff_available { text := [104] } "image/png").2.2
      (by decide),
   (dndText_as_bytes_iff_available { text := [104] } "image/png").2.1⟩

/-- C5: the drag-payload producer installed with `enable_tab_drag` returns
`some` for every nav-bar item id and always advertises the private reorder
tag `NAV_ITEM_MIME`, and that tag is the sole member of the destination's
accepted set `NavItemMime::allowed`. -/
theorem navDragPayload_always_advertises_reorder_tag (id : Nat) :
    (∃ p, navDragPayload id = some p ∧ p.1 = NAV_ITEM_MIME) ∧
    NavItemMime.allowed = [NAV_ITEM_MIME] :=
  ⟨⟨(NAV_ITEM_MIME, []), rfl, rfl⟩, rfl⟩

/-- C6: `remove(id)` removes the entry with that id when present and is a
no-op when the id is absent; if the removed entry was the active one the
active selection becomes `none`, and the view then renders the page
content as "No page selected". -/
theorem remove_removes_and_clears_active (m : ListModel) (id : Nat) :
    ((∀ e ∈ m.entries, e.id ≠ id) → m.remove id = m) ∧
    ((∃ e ∈ m.entries, e.id = id) →
      ((∀ e ∈ (m.remove id).entries, e.id ≠ id) ∧
       (∀ e ∈ m.entries, e.id ≠ id → e ∈ (m.remove id).entries) ∧
       (m.active = some id →
         (m.remove id).active = none ∧
         ∀ dt, App.page_content { nav_model := m.remove id, dropped_text := dt }
           = "No page selected"))) := by
  constructor
  · intro habs
    have : m.entries.any (fun e => e.id == id) = false := by
      simp only [List.any_eq_false, beq_iff_eq]
      exact habs
    simp [ListModel.remove, this]
  · intro hex
    have hany : m.entries.any (fun e => e.id == id) = true := by
      simp only [List.any_eq_true, beq_iff_eq]
      exact hex
    refine ⟨?_, ?_, ?_⟩
    · intro e he
      simp only [ListModel.remove, hany, if_true] at he
      simpa using (List.mem_filter.mp he).2
    · intro e he hne
      simp only [ListModel.remove, hany, if_true]
      exact List.mem_filter.mpr ⟨he, by simpa using hne⟩
    · intro hact
      have hrem : (m.remove id).active = none := by
        simp [ListModel.remove, hany, hact]
      refine ⟨hrem, fun dt => ?_⟩
      simp [App.page_content, ListModel.active_data, hrem]

/-- Witness for C6: removing the active entry of a concrete model clears
the selection and makes the view fall back to "No page selected". -/
theorem remove_witness :
    (demoModel.remove 0).active = none ∧
    App.page_content { nav_model := demoModel.remove 0, dropped_text := "t" }
      = "No page selected" := by
  have h := (remove_removes_and_clears_active demoModel 0).2 (by decide)
  exact ⟨(h.2.2 rfl).1, (h.2.2 rfl).2 "t"⟩

/-- C7: after initialization with the four input pages, the positions of
the four entries are 0, 1, 2, 3 in order, the entry at position 0
("Page 1") is the active entry, and the active entry's label builds the
title "Page 1 — COSMIC AppDemo". -/
theorem init_scenario :
    ((initApp input4).nav_model.entries.map
        (fun e => (initApp input4).nav_model.position e.id))
      = [some 0, some 1, some 2, some 3] ∧
    (initApp input4).nav_model.entries.map Entry.label
      = ["Page 1", "Page 2", "Page 3", "Page 4"] ∧
    ((initApp input4).nav_model.entries[0]?).map Entry.id
      = (initApp input4).nav_model.active ∧
    (initApp input4).active_page_title = "Page 1" ∧
    (initApp input4).window_title = "Page 1 — COSMIC AppDemo" := by
  decide

theorem invH_step {s : ListModel × List Nat} (h : InvH s) (op : Op) :
    InvH (stepH s op) := by
  obtain ⟨m, hist⟩ := s
  obtain ⟨h1, h2, h3, h4⟩ := h
  cases op with
  | ins label data =>
    refine ⟨?_, ?_, ?_, ?_⟩
    · simp only [stepH, ListModel.insert]
      rw [List.nodup_append]
      refine ⟨h1, List.nodup_singleton _, ?_⟩
      intro a ha hb
      simp only [List.mem_singleton] at hb
      exact absurd (hb ▸ h2 a ha) (lt_irrefl _)
    · intro a ha
      simp only [stepH, ListModel.insert, List.mem_append,
        List.mem_singleton] at ha ⊢
      rcases ha with ha | ha
      · exact Nat.lt_succ_of_lt (h2 a ha)
      · omega
    · simp only [stepH, ListModel.insert, List.map_append, List.map_cons,
        List.map_nil]
      rw [List.nodup_append]
      refine ⟨h3, List.nodup_singleton _, ?_⟩
      intro a ha hb
      simp only [List.mem_singleton] at hb
      obtain ⟨e, he, rfl⟩ := List.mem_map.mp ha
      exact absurd (hb ▸ h4 e he) (lt_irrefl _)
    · intro e he
      simp only [stepH, ListModel.insert, List.mem_append,
        List.mem_singleton] at he ⊢
      rcases he with he | he
      · exact Nat.lt_succ_of_lt (h4 e he)
      · simp [he]
  | rem id =>
    simp only [stepH, ListModel.remove]
    split
    · refine ⟨h1, fun a ha => h2 a ha, ?_, ?_⟩
      · exact h3.sublist ((m.entries.filter_sublist).map Entry.id)
      · intro e he
        exact h4 e (List.mem_of_mem_filter he)
    · exact ⟨h1, h2, h3, h4⟩

theorem invH_foldl (ops : List Op) (s : ListModel × List Nat)
    (h : InvH s) : InvH (ops.foldl stepH s) := by
  induction ops generalizing s with
  | nil => exact h
  | cons op rest ih => exact ih _ (invH_step h op)

theorem invH_runH (ops : List Op) : InvH (runH ops) :=
  invH_foldl ops _
    ⟨List.nodup_nil, by simp, by simp [ListModel.empty], by simp [ListModel.empty]⟩

theorem idxOf_get_of_nodup {l : List Entry} (hn : (l.map Entry.id).Nodup)
    {p : Nat} (hp : p < l.length) :
    idxOf l (l.get ⟨p, hp⟩).id = some p := by
  induction l generalizing p with
  | nil => simp at hp
  | cons e rest ih =>
    rw [List.map_cons, List.nodup_cons] at hn
    cases p with
    | zero => simp [idxOf]
    | succ n =>
      have hn' : n < rest.length := by simpa using hp
      have hmem : (rest.get ⟨n, hn'⟩).id ∈ rest.map Entry.id :=
        List.mem_map_of_mem Entry.id (rest.get_mem n hn')
      have hne : e.id ≠ (rest.get ⟨n, hn'⟩).id := by
        intro hc
        exact hn.1 (hc ▸ hmem)
      have hrec := ih hn.2 hn'
      simp only [List.get_eq_getElem] at hne hrec
      simp [idxOf, hne, hrec]

/-- C8: for every finite sequence of insert and remove operations from the
empty model, the ids handed out by `insert` over the whole run are pairwise
distinct (ids of removed entries are never reused), and in the final state
the positions of the entries form exactly the contiguous range
`0..len-1`. -/
theorem ids_never_reused_positions_contiguous (ops : List Op) :
    (runH ops).2.Nodup ∧
    ∀ p, (∃ id, (runH ops).1.position id = some p) ↔
      p < (runH ops).1.entries.length := by
  obtain ⟨h1, _, h3, _⟩ := invH_runH ops
  refine ⟨h1, fun p => ⟨?_, ?_⟩⟩
  · rintro ⟨id, hid⟩
    exact idxOf_lt_length hid
  · intro hp
    exact ⟨((runH ops).1.entries.get ⟨p, hp⟩).id, idxOf_get_of_nodup h3 hp⟩

/-- Witness for C8: a concrete run with an interleaved removal still has
pairwise-distinct assigned ids and an entry at position 1. -/
theorem ids_never_reused_witness :
    (runH demoOps).2.Nodup ∧
    ∃ id, (runH demoOps).1.position id = some 1 :=
  ⟨(ids_never_reused_positions_contiguous demoOps).1,
   ((ids_never_reused_positions_contiguous demoOps).2 1).mpr (by decide)⟩

/-- C9: the conversion of received drop data into `DndText` is total: its
error type is uninhabited, it returns `Ok` for every byte vector and mime
string, and when the bytes are not valid UTF-8 it yields `DndText` of the
empty string rather than an error. -/
theorem dndText_tryFrom_total (v : List Nat × String) :
    (∃ t, DndText.tryFrom v = Except.ok t) ∧
    (¬ ∃ e, DndText.tryFrom v = Except.error e) ∧
    (utf8Decode v.1 = none → DndText.tryFrom v = Except.ok { text := [] }) := by
  refine ⟨⟨_, rfl⟩, ?_, ?_⟩
  · rintro ⟨e, he⟩
    exact Except.noConfusion he
  · intro h
    simp [DndText.tryFrom, h]

/-- Witness for C9: the byte `0xFF` is not valid UTF-8, and dropping it is
silently delivered as empty text. -/
theorem dndText_tryFrom_witness :
    utf8Decode [255] = none ∧
    DndText.tryFrom ([255], "text/plain") = Except.ok { text := [] } :=
  ⟨by decide, (dndText_tryFrom_total ([255], "text/plain")).2.2 (by decide)⟩

/-- C10: the notification messages `SourceStarted`, `SourceFinished`,
`SourceCancelled` and `ZoneHovered(x, y)` leave the application state
unchanged; every message returns the empty task; only `ZoneDropped`
mutates `dropped_text` and only the nav messages mutate `nav_model`. -/
theorem update_frame_effects (s : App) (msg : Message) :
    (App.update s msg).2 = none ∧
    App.update s .sourceStarted = (s, none) ∧
    App.update s .sourceFinished = (s, none) ∧
    App.update s .sourceCancelled = (s, none) ∧
    (∀ x y, App.update s (.zoneHovered x y) = (s, none)) ∧
    ((∀ d, msg ≠ .zoneDropped d) →
      (App.update s msg).1.dropped_text = s.dropped_text) ∧
    ((∀ a, msg ≠ .navMenuAction a) → (∀ e, msg ≠ .navReorder e) →
      (App.update s msg).1.nav_model = s.nav_model) := by
  refine ⟨?_, rfl, rfl, rfl, fun x y => rfl, ?_, ?_⟩
  · cases msg
    case navMenuAction a => cases a <;> rfl
    all_goals rfl
  · intro hnd
    cases msg
    case zoneDropped d => exact absurd rfl (hnd d)
    case navMenuAction a => cases a <;> rfl
    all_goals rfl
  · intro hna hnr
    cases msg
    case navMenuAction a => exact absurd rfl (hna a)
    case navReorder e => exact absurd rfl (hnr e)
    all_goals rfl

/-- Witness for C10: a concrete notification message leaves a concrete
state unchanged and produces no task. -/
theorem update_frame_effects_witness :
    (App.update { nav_model := demoModel, dropped_text := "t" }
        Message.sourceStarted).1.dropped_text = "t" ∧
    (App.update { nav_model := demoModel, dropped_text := "t" }
        Message.sourceStarted).1.nav_model = demoModel ∧
    (App.update { nav_model := demoModel, dropped_text := "t" }
        Message.sourceStarted).2 = none := by
  have h := update_frame_effects
    { nav_model := demoModel, dropped_text := "t" } Message.sourceStarted
  exact ⟨h.2.2.2.2.2.1 (fun d hd => Message.noConfusion hd),
         h.2.2.2.2.2.2 (fun a ha => Message.noConfusion ha)
           (fun e he => Message.noConfusion he),
         h.1⟩

end NavDnd
